import Mathlib

/-!
Shallow embedding of the oidn image I/O module (sRGB transforms, PFM
reader/writer, extension-based dispatch) and of the statically registered
CUTLASS convolution instance list for architecture generation 75
(Turing), together with theorems settling the specification claims.

Binary32 sample values are modelled as real numbers (the image plumbing
is stated polymorphically over a linear ordered field, so concrete
witnesses can be evaluated over the rationals); byte streams produced
and consumed through the C++ standard library are modelled at token
level: the PFM header tokens and the decoded binary32 payload values in
file order.
-/

namespace Oidn

/-- Model of the scalar overload of srgbForward: the sRGB encode,
12.92 * y on the linear toe, 1.055 * y ^ (1/2.4) - 0.055 above it. -/
noncomputable def srgbForward (y : ℝ) : ℝ :=
  if y ≤ 0.0031308 then 12.92 * y else 1.055 * y ^ ((1 : ℝ) / 2.4) - 0.055

/-- Model of the scalar overload of srgbInverse: the sRGB decode,
x / 12.92 on the linear toe, ((x + 0.055) / 1.055) ^ 2.4 above it. -/
noncomputable def srgbInverse (x : ℝ) : ℝ :=
  if x ≤ 0.04045 then x / 12.92 else ((x + 0.055) / 1.055) ^ (2.4 : ℝ)

/-- Written from the words of the spec (section 6): the sRGB encode
transform y ≤ 0.0031308 ? 12.92y : 1.055 * y^(1/2.4) - 0.055. -/
noncomputable def srgbEncodeSpec (y : ℝ) : ℝ :=
  if y ≤ 0.0031308 then 12.92 * y else 1.055 * y ^ ((1 : ℝ) / 2.4) - 0.055

/-- Written from the words of the spec (section 6): the sRGB decode
transform x ≤ 0.04045 ? x/12.92 : ((x+0.055)/1.055)^2.4. -/
noncomputable def srgbDecodeSpec (x : ℝ) : ℝ :=
  if x ≤ 0.04045 then x / 12.92 else ((x + 0.055) / 1.055) ^ (2.4 : ℝ)

/-- Model of C tolower restricted to ASCII, as applied per character in
getExtension. -/
def toLowerCh (c : Char) : Char :=
  if 'A' ≤ c ∧ c ≤ 'Z' then Char.ofNat (c.toNat + 32) else c

/-- Model of getExtension: the substring after the last dot, lowercased;
the empty string when the filename holds no dot. -/
def getExtension (filename : List Char) : List Char :=
  if '.' ∈ filename then
    ((filename.reverse.takeWhile (fun c => c ≠ '.')).reverse).map toLowerCh
  else []

/-- Model of isSrgbImage: the file is treated as gamma encoded exactly
when its extension is none of pfm, exr, hdr. -/
def isSrgbImage (filename : List Char) : Bool :=
  getExtension filename ≠ ['p', 'f', 'm'] &&
  getExtension filename ≠ ['e', 'x', 'r'] &&
  getExtension filename ≠ ['h', 'd', 'r']

/-- Model of ImageBuffer: width, height, channel count and the flat
row-major sample vector, polymorphic in the sample scalar. -/
structure ImageBuffer (α : Type) where
  width : ℕ
  height : ℕ
  channels : ℕ
  data : List α
  deriving DecidableEq

/-- Element access image[i], out-of-range reads defaulting to zero. -/
def ImageBuffer.get {α : Type} [Zero α] (im : ImageBuffer α) (i : ℕ) : α :=
  im.data.getD i 0

/-- Model of getDataSize: the length of the sample vector. -/
def ImageBuffer.getDataSize {α : Type} (im : ImageBuffer α) : ℕ :=
  im.data.length

/-- Model of the ImageBuffer overload of srgbForward: the encode applied
in place to every sample. -/
noncomputable def srgbForwardImage (im : ImageBuffer ℝ) : ImageBuffer ℝ :=
  { im with data := im.data.map srgbForward }

/-- Model of the ImageBuffer overload of srgbInverse: the decode applied
in place to every sample. -/
noncomputable def srgbInverseImage (im : ImageBuffer ℝ) : ImageBuffer ℝ :=
  { im with data := im.data.map srgbInverse }

/-- Token-level model of the byte stream loadImagePFM consumes through
std::ifstream: whether the file opened, the id token, whether the
width/height/scale tokens parsed, their values, and the binary32 payload
values decoded in file order. -/
structure PFMInput (α : Type) where
  openOk : Bool
  id : List Char
  headerOk : Bool
  width : ℕ
  height : ℕ
  scale : α
  payload : List α
  deriving DecidableEq

/-- Pixel assembly of loadImagePFM: destination j receives the payload
value at the vertically flipped file position, times the scale. -/
def pfmAssemble {α : Type} [LinearOrderedField α]
    (W H C : ℕ) (scale : α) (payload : List α) : List α :=
  (List.range (W * H * C)).map (fun j =>
    payload.getD ((H - 1 - j / (W * C)) * (W * C) + j % (W * C)) 0 * scale)

/-- Continuation of loadImagePFM after the channel count is fixed from
the id token: header parse check, big-endian rejection, pixel reads. -/
def loadImagePFMBody {α : Type} [LinearOrderedField α]
    (f : PFMInput α) (C : ℕ) : Except String (ImageBuffer α) :=
  if f.headerOk = false then Except.error "invalid PFM image"
  else if 0 ≤ f.scale then Except.error "big-endian PFM images are not supported"
  else if f.payload.length < f.width * f.height * C then
    Except.error "invalid PFM image"
  else Except.ok ⟨f.width, f.height, C, pfmAssemble f.width f.height C |f.scale| f.payload⟩

/-- Model of loadImagePFM: open check, id token dispatch to 3 or 1
channels, then the shared body. -/
def loadImagePFM {α : Type} [LinearOrderedField α]
    (f : PFMInput α) : Except String (ImageBuffer α) :=
  if f.openOk = false then Except.error "cannot open image file"
  else if f.id = ['P', 'F'] then loadImagePFMBody f 3
  else if f.id = ['P', 'f'] then loadImagePFMBody f 1
  else Except.error "invalid PFM image"

/-- Source element index read by saveImagePFM for the k-th value written
to the file: the loops run h over H, w over W and c over 0..2, and read
image[((H-1-h)*W + w)*C + c]. -/
def savePFMIndex (W H C : ℕ) (k : ℕ) : ℕ :=
  ((H - 1 - k / (W * 3)) * W + (k % (W * 3)) / 3) * C + (k % (W * 3)) % 3

/-- Payload written by saveImagePFM, in file order. -/
def saveImagePFMPayload {α : Type} [LinearOrderedField α]
    (im : ImageBuffer α) : List α :=
  (List.range (im.height * im.width * 3)).map (fun k =>
    im.data.getD (savePFMIndex im.width im.height im.channels k) 0)

/-- Model of saveImagePFM: the written stream has id PF, the image
dimensions, scale -1.0 and the flipped payload. -/
def saveImagePFM {α : Type} [LinearOrderedField α]
    (im : ImageBuffer α) : PFMInput α :=
  { openOk := true
    id := ['P', 'F']
    headerOk := true
    width := im.width
    height := im.height
    scale := -1
    payload := saveImagePFMPayload im }

/-- Every element index saveImagePFM reads from an image of the given
dimensions, in write order. -/
def saveImagePFMReadIndices (W H C : ℕ) : List ℕ :=
  (List.range (H * W * 3)).map (savePFMIndex W H C)

/-- Model of loadImage(filename, srgb), with the image produced by the
format loader abstracted as a parameter: the sRGB decode is applied
exactly when srgb is false and the extension denotes a display format. -/
noncomputable def loadImageSrgb (filename : List Char) (im : ImageBuffer ℝ)
    (srgb : Bool) : ImageBuffer ℝ :=
  if srgb = false ∧ isSrgbImage filename = true then srgbInverseImage im else im

/-- State-passing model of saveImage(filename, image, srgb): the C++
function takes the image by const reference and, when conversion is
needed, copies it into newImage before encoding; the model returns the
pair (image handed to the format writer, the buffer owned by the caller
after the call returns). -/
noncomputable def saveImageSrgb (filename : List Char) (im : ImageBuffer ℝ)
    (srgb : Bool) : ImageBuffer ℝ × ImageBuffer ℝ :=
  if srgb = false ∧ isSrgbImage filename = true then
    (srgbForwardImage im, im)
  else (im, im)

/-- Modelled from the spec: the CUTLASS threadblock/warp tile shape
template GemmShape, declared in cutlass headers outside src, carrying
the three tile extents. -/
structure GemmShape where
  m : ℕ
  n : ℕ
  k : ℕ
  deriving DecidableEq

/-- Modelled from the spec: the element precision of a kernel variant;
the generation-75 list uses only half precision. -/
inductive CutlassElement where
  | half
  deriving DecidableEq

/-- Modelled from the spec: the kernel-variant descriptor
CutlassConvFactory, declared in cutlass_conv.h outside src; per the
spec each variant declares a tile-shape envelope, a precision and a
minimum architecture requirement. -/
structure CutlassConvFactory where
  elementType : CutlassElement
  arch : ℕ
  threadblockShape : GemmShape
  warpShape : GemmShape
  numStages : ℕ
  deriving DecidableEq

/-- Modelled from the spec: CutlassConvInstance::get packs the template
parameters of one variant into its descriptor. -/
def cutlassConvInstanceGet (e : CutlassElement) (arch : ℕ)
    (tb warp : GemmShape) (stages : ℕ) : CutlassConvFactory :=
  { elementType := e
    arch := arch
    threadblockShape := tb
    warpShape := warp
    numStages := stages }

/-- Model of getCutlassConvInstances specialised at 75: each call builds
the same two-element list of Turing half-precision variants. -/
def getCutlassConvInstances75 : Unit → List CutlassConvFactory := fun _ =>
  [ cutlassConvInstanceGet CutlassElement.half 75 ⟨256, 32, 32⟩ ⟨64, 32, 32⟩ 2,
    cutlassConvInstanceGet CutlassElement.half 75 ⟨256, 64, 32⟩ ⟨64, 64, 32⟩ 2 ]

/-- C1: the sRGB encode and decode of the code coincide, as functions on
every real-modelled binary32 input, with the fixed piecewise sRGB
transform written from the words of the spec, branch for branch. -/
theorem srgbForward_srgbInverse_match_spec :
    (∀ y : ℝ, srgbForward y = srgbEncodeSpec y) ∧
    (∀ x : ℝ, srgbInverse x = srgbDecodeSpec x) :=
  ⟨fun _ => rfl, fun _ => rfl⟩

lemma rpow_five_twelfths_bounds (y a b : ℝ) (hy : 0 ≤ y) (ha : 0 ≤ a)
    (hb : 0 ≤ b) (hl : a ^ (12 : ℕ) ≤ y ^ (5 : ℕ)) (hr : y ^ (5 : ℕ) ≤ b ^ (12 : ℕ)) :
    a ≤ y ^ ((5 : ℝ) / 12) ∧ y ^ ((5 : ℝ) / 12) ≤ b := by
  have ht : 0 ≤ y ^ ((5 : ℝ) / 12) := Real.rpow_nonneg hy _
  have h12 : (y ^ ((5 : ℝ) / 12)) ^ (12 : ℕ) = y ^ (5 : ℕ) := by
    rw [← Real.rpow_natCast (y ^ ((5 : ℝ) / 12)) 12, ← Real.rpow_mul hy,
      ← Real.rpow_natCast y 5]
    norm_num
  constructor
  · refine le_of_pow_le_pow_left₀ (by norm_num : (12 : ℕ) ≠ 0) ht ?_
    rw [h12]; exact hl
  · refine le_of_pow_le_pow_left₀ (by norm_num : (12 : ℕ) ≠ 0) hb ?_
    rw [h12]; exact hr

lemma srgb_roundTrip_exact (x : ℝ) (hx : ¬ (x ≤ 0.04045))
    (hu : 0 ≤ (x + 0.055) / 1.055)
    (hbig : ¬ ((((x + 0.055) / 1.055 : ℝ)) ^ (2.4 : ℝ) ≤ 0.0031308)) :
    srgbForward (srgbInverse x) = x := by
  simp only [srgbInverse, srgbForward]
  rw [if_neg hx, if_neg hbig]
  have hcomp : ((((x + 0.055) / 1.055 : ℝ)) ^ (2.4 : ℝ)) ^ ((1 : ℝ) / 2.4)
      = (x + 0.055) / 1.055 := by
    rw [← Real.rpow_mul hu]
    norm_num
  rw [hcomp]
  ring

/-- C2: for each x in the set 0, 0.04045, 0.5, 1, the binary32-modelled
composition srgbForward after srgbInverse recovers x within 1e-4. -/
theorem srgb_roundTrip_within_tolerance :
    |srgbForward (srgbInverse 0) - 0| ≤ 0.0001 ∧
    |srgbForward (srgbInverse 0.04045) - 0.04045| ≤ 0.0001 ∧
    |srgbForward (srgbInverse 0.5) - 0.5| ≤ 0.0001 ∧
    |srgbForward (srgbInverse 1) - 1| ≤ 0.0001 := by
  refine ⟨?_, ?_, ?_, ?_⟩
  · have hinv : srgbInverse 0 = 0 := by
      simp only [srgbInverse]
      rw [if_pos (by norm_num : (0 : ℝ) ≤ 0.04045)]
      norm_num
    rw [hinv]
    have hfwd : srgbForward 0 = 0 := by
      simp only [srgbForward]
      rw [if_pos (by norm_num : (0 : ℝ) ≤ 0.0031308)]
      norm_num
    rw [hfwd]
    norm_num
  · have hinv : srgbInverse 0.04045 = 0.04045 / 12.92 := by
      simp only [srgbInverse]
      rw [if_pos (by norm_num : (0.04045 : ℝ) ≤ 0.04045)]
    have hfwd : srgbForward (0.04045 / 12.92)
        = 1.055 * ((0.04045 : ℝ) / 12.92) ^ ((1 : ℝ) / 2.4) - 0.055 := by
      simp only [srgbForward]
      rw [if_neg (by norm_num : ¬ ((0.04045 : ℝ) / 12.92 ≤ 0.0031308))]
    obtain ⟨hlo, hhi⟩ := rpow_five_twelfths_bounds ((0.04045 : ℝ) / 12.92) 0.0904 0.0905
      (by norm_num) (by norm_num) (by norm_num) (by norm_num) (by norm_num)
    have hexp : (1 : ℝ) / 2.4 = (5 : ℝ) / 12 := by norm_num
    rw [hinv, hfwd, hexp, abs_le]
    constructor
    · linarith
    · linarith
  · have hobl : ¬ ((((0.5 : ℝ) + 0.055) / 1.055) ^ (2.4 : ℝ) ≤ 0.0031308) := by
      have h3 : (((0.5 : ℝ) + 0.055) / 1.055) ^ ((3 : ℕ) : ℝ)
          ≤ (((0.5 : ℝ) + 0.055) / 1.055) ^ (2.4 : ℝ) :=
        Real.rpow_le_rpow_of_exponent_ge (by norm_num) (by norm_num) (by norm_num)
      rw [Real.rpow_natCast] at h3
      have : (0.0031308 : ℝ) < (((0.5 : ℝ) + 0.055) / 1.055) ^ (3 : ℕ) := by norm_num
      push_neg
      linarith
    rw [srgb_roundTrip_exact 0.5 (by norm_num) (by norm_num) hobl]
    norm_num
  · have hone : ((1 : ℝ) + 0.055) / 1.055 = 1 := by norm_num
    have hobl : ¬ ((((1 : ℝ) + 0.055) / 1.055) ^ (2.4 : ℝ) ≤ 0.0031308) := by
      rw [hone, Real.one_rpow]
      norm_num
    rw [srgb_roundTrip_exact 1 (by norm_num) (by norm_num) hobl]
    norm_num

lemma getD_map_range {α : Type} (n j : ℕ) (f : ℕ → α) (d : α) (hj : j < n) :
    ((List.range n).map f).getD j d = f j := by
  rw [List.getD_eq_getElem?_getD, List.getElem?_map, List.getElem?_range hj]
  rfl

lemma getD_eq_getElem_of_lt {α : Type} (l : List α) (d : α) (j : ℕ)
    (hj : j < l.length) : l.getD j d = l[j] := by
  rw [List.getD_eq_getElem?_getD, List.getElem?_eq_getElem hj]
  rfl

lemma mul_add_div_of_lt (a b n : ℕ) (hb : b < n) : (a * n + b) / n = a := by
  have hn : 0 < n := lt_of_le_of_lt (Nat.zero_le b) hb
  rw [Nat.mul_comm a n, Nat.mul_add_div hn, Nat.div_eq_of_lt hb, Nat.add_zero]

lemma mul_add_mod_of_lt (a b n : ℕ) (hb : b < n) : (a * n + b) % n = b := by
  rw [Nat.mul_comm a n, Nat.mul_add_mod, Nat.mod_eq_of_lt hb]

lemma mul_index_lt (p P c C : ℕ) (hp : p < P) (hc : c < C) :
    p * C + c < P * C := by
  calc p * C + c < p * C + C := by omega
    _ = (p + 1) * C := by ring
    _ ≤ P * C := Nat.mul_le_mul_right C hp

lemma pfmAssemble_length {α : Type} [LinearOrderedField α] (W H C : ℕ)
    (s : α) (payload : List α) :
    (pfmAssemble W H C s payload).length = W * H * C := by
  simp [pfmAssemble]

lemma pfmAssemble_getD {α : Type} [LinearOrderedField α] (W H C : ℕ) (s : α)
    (payload : List α) (j : ℕ) (hj : j < W * H * C) :
    (pfmAssemble W H C s payload).getD j 0
      = payload.getD ((H - 1 - j / (W * C)) * (W * C) + j % (W * C)) 0 * s := by
  unfold pfmAssemble
  exact getD_map_range _ _ _ _ hj

/-- C6: on a well-formed little-endian PFM stream with id PF or Pf,
width W, height H and negative scale s, loadImagePFM succeeds with an
image of exactly those dimensions whose sample at the flipped row-major
index equals the corresponding file-order payload value times the
absolute value of the scale. -/
theorem loadImagePFM_wellFormed {α : Type} [LinearOrderedField α]
    (f : PFMInput α) (C : ℕ)
    (hopen : f.openOk = true)
    (hid : (f.id = ['P', 'F'] ∧ C = 3) ∨ (f.id = ['P', 'f'] ∧ C = 1))
    (hhdr : f.headerOk = true)
    (hscale : f.scale < 0)
    (hlen : f.width * f.height * C ≤ f.payload.length)
    (h w c : ℕ) (hh : h < f.height) (hw : w < f.width) (hc : c < C) :
    ∃ im, loadImagePFM f = Except.ok im
      ∧ im.width = f.width ∧ im.height = f.height ∧ im.channels = C
      ∧ im.get (((f.height - 1 - h) * f.width + w) * C + c)
          = f.payload.getD ((h * f.width + w) * C + c) 0 * |f.scale| := by
  have hload : loadImagePFM f = loadImagePFMBody f C := by
    unfold loadImagePFM
    rcases hid with ⟨hid, hC⟩ | ⟨hid, hC⟩ <;> subst hC
    · rw [hopen, hid, if_neg (by simp), if_pos rfl]
    · rw [hopen, hid, if_neg (by simp), if_neg (by decide), if_pos rfl]
  have hbody : loadImagePFMBody f C
      = Except.ok ⟨f.width, f.height, C, pfmAssemble f.width f.height C |f.scale| f.payload⟩ := by
    unfold loadImagePFMBody
    rw [hhdr, if_neg (by simp), if_neg (not_le.mpr hscale), if_neg (not_lt.mpr hlen)]
  refine ⟨_, hload.trans hbody, rfl, rfl, rfl, ?_⟩
  have hp : (f.height - 1 - h) * f.width + w < f.height * f.width :=
    mul_index_lt _ _ _ _ (by omega) hw
  have hj : ((f.height - 1 - h) * f.width + w) * C + c < f.width * f.height * C := by
    have := mul_index_lt _ _ _ _ hp hc
    calc ((f.height - 1 - h) * f.width + w) * C + c
        < f.height * f.width * C := this
      _ = f.width * f.height * C := by ring
  show (pfmAssemble f.width f.height C |f.scale| f.payload).getD _ 0 = _
  rw [pfmAssemble_getD _ _ _ _ _ _ hj]
  have hwc : w * C + c < f.width * C := mul_index_lt _ _ _ _ hw hc
  have hsplit : ((f.height - 1 - h) * f.width + w) * C + c
      = (f.height - 1 - h) * (f.width * C) + (w * C + c) := by ring
  rw [hsplit, mul_add_div_of_lt _ _ _ hwc, mul_add_mod_of_lt _ _ _ hwc]
  have hback : f.height - 1 - (f.height - 1 - h) = h := by omega
  rw [hback]
  have hidx : h * (f.width * C) + (w * C + c) = (h * f.width + w) * C + c := by ring
  rw [hidx]

/-- C7: whenever the file did not open, the id token is neither PF nor
Pf, the header numbers failed to parse, or the parsed scale is
non-negative, loadImagePFM yields a typed error and no image. -/
theorem loadImagePFM_error_on_malformed {α : Type} [LinearOrderedField α]
    (f : PFMInput α)
    (hbad : f.openOk = false ∨ (f.id ≠ ['P', 'F'] ∧ f.id ≠ ['P', 'f'])
      ∨ f.headerOk = false ∨ 0 ≤ f.scale) :
    ∃ e, loadImagePFM f = Except.error e := by
  unfold loadImagePFM loadImagePFMBody
  rcases hbad with hb | ⟨hb1, hb2⟩ | hb | hb <;>
    split_ifs <;> first
      | exact ⟨_, rfl⟩
      | tauto

/-- C10: saving a 3-channel image with saveImagePFM and loading the
produced stream back with loadImagePFM returns the original image
unchanged: the two vertical flips and the written scale of -1.0 cancel
exactly. -/
theorem savePFM_loadPFM_roundTrip {α : Type} [LinearOrderedField α]
    (im : ImageBuffer α) (hC : im.channels = 3)
    (hlen : im.data.length = im.width * im.height * 3) :
    loadImagePFM (saveImagePFM im) = Except.ok im := by
  obtain ⟨W, H, C, data⟩ := im
  dsimp only at hC hlen
  subst hC
  have hplen : (saveImagePFMPayload (⟨W, H, 3, data⟩ : ImageBuffer α)).length
      = H * W * 3 := by
    simp [saveImagePFMPayload]
  unfold loadImagePFM saveImagePFM
  dsimp only
  rw [if_neg (by simp), if_pos rfl]
  unfold loadImagePFMBody
  dsimp only
  rw [if_neg (by simp), if_neg (not_le.mpr neg_one_lt_zero),
    if_neg (by rw [hplen]; exact not_lt.mpr (le_of_eq (by ring)))]
  have habs : |(-1 : α)| = 1 := by rw [abs_neg, abs_one]
  rw [habs]
  refine congrArg Except.ok (congrArg (ImageBuffer.mk W H 3) ?_)
  apply List.ext_getElem
  · rw [pfmAssemble_length, hlen]
  · intro j h1 h2
    have hj : j < W * H * 3 := by rwa [pfmAssemble_length] at h1
    have hW : 0 < W := by
      rcases Nat.eq_zero_or_pos W with h0 | h0
      · subst h0; simp at hj
      · exact h0
    have hH : 0 < H := by
      rcases Nat.eq_zero_or_pos H with h0 | h0
      · subst h0; simp at hj
      · exact h0
    rw [← getD_eq_getElem_of_lt _ 0 j h1, ← getD_eq_getElem_of_lt data 0 j h2,
      pfmAssemble_getD _ _ _ _ _ _ hj, mul_one]
    have hm : j % (W * 3) < W * 3 := Nat.mod_lt _ (by omega)
    have hr : j / (W * 3) < H := by
      apply Nat.div_lt_of_lt_mul
      calc j < W * H * 3 := hj
        _ = W * 3 * H := by ring
    have htop : H - 1 - j / (W * 3) < H :=
      lt_of_le_of_lt (Nat.sub_le _ _) (Nat.sub_lt hH one_pos)
    have hkrange : (H - 1 - j / (W * 3)) * (W * 3) + j % (W * 3) < H * W * 3 := by
      have := mul_index_lt (H - 1 - j / (W * 3)) H (j % (W * 3)) (W * 3) htop hm
      calc (H - 1 - j / (W * 3)) * (W * 3) + j % (W * 3)
          < H * (W * 3) := this
        _ = H * W * 3 := by ring
    show (saveImagePFMPayload (⟨W, H, 3, data⟩ : ImageBuffer α)).getD _ 0 = _
    unfold saveImagePFMPayload
    dsimp only
    rw [getD_map_range _ _ _ _ hkrange]
    have hidx : savePFMIndex W H 3 ((H - 1 - j / (W * 3)) * (W * 3) + j % (W * 3)) = j := by
      unfold savePFMIndex
      rw [mul_add_div_of_lt _ _ _ hm, mul_add_mod_of_lt _ _ _ hm]
      have hback : H - 1 - (H - 1 - j / (W * 3)) = j / (W * 3) :=
        Nat.sub_sub_self (Nat.le_sub_one_of_lt hr)
      rw [hback]
      have hdm3 : 3 * ((j % (W * 3)) / 3) + (j % (W * 3)) % 3 = j % (W * 3) :=
        Nat.div_add_mod _ 3
      have hdmW : (W * 3) * (j / (W * 3)) + j % (W * 3) = j := Nat.div_add_mod j (W * 3)
      calc (j / (W * 3) * W + (j % (W * 3)) / 3) * 3 + (j % (W * 3)) % 3
          = (W * 3) * (j / (W * 3)) + (3 * ((j % (W * 3)) / 3) + (j % (W * 3)) % 3) := by
            ring
        _ = (W * 3) * (j / (W * 3)) + j % (W * 3) := by rw [hdm3]
        _ = j := hdmW
    rw [hidx]

/-- C8: evaluation of the writer at a 1x1 single-channel image: the
channel loop of saveImagePFM always runs c over 0..2, so the read index
2 occurs although the image holds W*H*C = 1 samples; the in-bounds claim
fails on the code for images with fewer than 3 channels. -/
theorem saveImagePFM_reads_out_of_bounds :
    2 ∈ saveImagePFMReadIndices 1 1 1 ∧ ¬ (2 < 1 * 1 * 1) := by
  decide

/-- C3: loadImage with srgb = false applies the sRGB decode to every
sample exactly when the lowercased extension is none of pfm, exr, hdr;
with srgb = true, or on one of those linear formats, the loaded image is
returned unchanged. -/
theorem loadImage_applies_decode_iff (fn : List Char) (im : ImageBuffer ℝ) :
    (isSrgbImage fn = true ↔
      (getExtension fn ≠ ['p', 'f', 'm'] ∧ getExtension fn ≠ ['e', 'x', 'r']
        ∧ getExtension fn ≠ ['h', 'd', 'r']))
    ∧ (isSrgbImage fn = true →
        (loadImageSrgb fn im false).data = im.data.map srgbInverse)
    ∧ (isSrgbImage fn = false → ∀ srgb, loadImageSrgb fn im srgb = im)
    ∧ (∀ srgb, srgb = true → loadImageSrgb fn im srgb = im) := by
  refine ⟨?_, ?_, ?_, ?_⟩
  · simp only [isSrgbImage, Bool.and_eq_true, decide_eq_true_eq, ne_eq]
    tauto
  · intro hsrgb
    unfold loadImageSrgb
    rw [if_pos ⟨rfl, hsrgb⟩]
    rfl
  · intro hlin srgb
    unfold loadImageSrgb
    rw [if_neg (by simp [hlin])]
  · intro srgb hsrgb
    subst hsrgb
    unfold loadImageSrgb
    rw [if_neg (by simp)]

/-- C4: the registered instance list for architecture generation 75 is
deterministic: any two calls return identical variant lists. -/
theorem getCutlassConvInstances75_deterministic (u v : Unit) :
    getCutlassConvInstances75 u = getCutlassConvInstances75 v := rfl

/-- C5: the statically registered generation-75 list holds exactly two
half-precision variants, both declaring architecture 75, with
threadblock tiles 256x32x32 and 256x64x32; being a pure constant, its
contents never change after registration. -/
theorem getCutlassConvInstances75_registration :
    (getCutlassConvInstances75 ()).length = 2
    ∧ (getCutlassConvInstances75 ()).map CutlassConvFactory.arch = [75, 75]
    ∧ (getCutlassConvInstances75 ()).map CutlassConvFactory.elementType
        = [CutlassElement.half, CutlassElement.half]
    ∧ (getCutlassConvInstances75 ()).map CutlassConvFactory.threadblockShape
        = [⟨256, 32, 32⟩, ⟨256, 64, 32⟩] :=
  ⟨rfl, rfl, rfl, rfl⟩

/-- C9: saveImage never modifies the buffer owned by the caller: the
post-call buffer equals the input sample for sample, and when
conversion is needed the encode is applied to a private copy handed to
the format writer. -/
theorem saveImage_preserves_input (fn : List Char) (im : ImageBuffer ℝ)
    (srgb : Bool) :
    (saveImageSrgb fn im srgb).2 = im
    ∧ (∀ i, ((saveImageSrgb fn im srgb).2).get i = im.get i)
    ∧ (srgb = false → isSrgbImage fn = true →
        (saveImageSrgb fn im srgb).1 = srgbForwardImage im) := by
  unfold saveImageSrgb
  refine ⟨?_, ?_, ?_⟩
  · split_ifs <;> rfl
  · intro i
    split_ifs <;> rfl
  · intro h1 h2
    rw [if_pos ⟨h1, h2⟩]

/-- Witness for C6: a concrete well-formed 1x2 three-channel rational
stream with scale -2 loads successfully and the flipped sample equality
holds at h = 1, w = 0, c = 0. -/
theorem loadImagePFM_wellFormed_witness :
    (-2 : ℚ) < 0 ∧
    (∃ im, loadImagePFM (PFMInput.mk true ['P', 'F'] true 1 2 (-2 : ℚ) [1, 2, 3, 4, 5, 6])
        = Except.ok im
      ∧ im.width = 1 ∧ im.height = 2 ∧ im.channels = 3
      ∧ im.get (((2 - 1 - 1) * 1 + 0) * 3 + 0)
          = ([1, 2, 3, 4, 5, 6] : List ℚ).getD ((1 * 1 + 0) * 3 + 0) 0 * |(-2 : ℚ)|) :=
  ⟨by norm_num,
    loadImagePFM_wellFormed (PFMInput.mk true ['P', 'F'] true 1 2 (-2 : ℚ) [1, 2, 3, 4, 5, 6])
      3 rfl (Or.inl ⟨rfl, rfl⟩) rfl (by norm_num) (by norm_num)
      1 0 0 (by norm_num) (by norm_num) (by norm_num)⟩

/-- Witness for C7: a stream with the non-negative scale 1 is rejected
with a typed error. -/
theorem loadImagePFM_error_on_malformed_witness :
    (0 : ℚ) ≤ 1 ∧
    (∃ e, loadImagePFM (PFMInput.mk true ['P', 'F'] true 1 1 (1 : ℚ) [])
        = Except.error e) :=
  ⟨by norm_num,
    loadImagePFM_error_on_malformed (PFMInput.mk true ['P', 'F'] true 1 1 (1 : ℚ) [])
      (Or.inr (Or.inr (Or.inr (by norm_num))))⟩

/-- Witness for C10: a concrete 1x2 three-channel rational image
survives the save/load round trip unchanged. -/
theorem savePFM_loadPFM_roundTrip_witness :
    (ImageBuffer.mk 1 2 3 ([1, 2, 3, 4, 5, 6] : List ℚ)).channels = 3 ∧
    loadImagePFM (saveImagePFM (ImageBuffer.mk 1 2 3 ([1, 2, 3, 4, 5, 6] : List ℚ)))
      = Except.ok (ImageBuffer.mk 1 2 3 ([1, 2, 3, 4, 5, 6] : List ℚ)) :=
  ⟨rfl, savePFM_loadPFM_roundTrip (ImageBuffer.mk 1 2 3 ([1, 2, 3, 4, 5, 6] : List ℚ))
    rfl (by decide)⟩

/-- Witness for C3: a filename with the display extension png triggers
the decode, evaluated on a one-sample image. -/
theorem loadImage_applies_decode_iff_witness :
    isSrgbImage ("photo.PNG".toList) = true ∧
    (loadImageSrgb ("photo.PNG".toList) (ImageBuffer.mk 1 1 1 [(0 : ℝ)]) false).data
      = [(0 : ℝ)].map srgbInverse :=
  ⟨by decide,
    (loadImage_applies_decode_iff ("photo.PNG".toList)
      (ImageBuffer.mk 1 1 1 [(0 : ℝ)])).2.1 (by decide)⟩

/-- Witness for C9: saving a one-sample image to a ppm display file with
srgb = false leaves the caller buffer intact and encodes a copy. -/
theorem saveImage_preserves_input_witness :
    isSrgbImage ("out.ppm".toList) = true ∧
    (saveImageSrgb ("out.ppm".toList) (ImageBuffer.mk 1 1 1 [(0 : ℝ)]) false).2
      = ImageBuffer.mk 1 1 1 [(0 : ℝ)] ∧
    (saveImageSrgb ("out.ppm".toList) (ImageBuffer.mk 1 1 1 [(0 : ℝ)]) false).1
      = srgbForwardImage (ImageBuffer.mk 1 1 1 [(0 : ℝ)]) :=
  ⟨by decide,
    (saveImage_preserves_input ("out.ppm".toList) (ImageBuffer.mk 1 1 1 [(0 : ℝ)]) false).1,
    (saveImage_preserves_input ("out.ppm".toList) (ImageBuffer.mk 1 1 1 [(0 : ℝ)]) false).2.2
      rfl (by decide)⟩

end Oidn
